import Mathlib

/-!
Verification of the fm-log-report aggregation core (src/src/lib.rs).

The Rust program ingests fault-management log events, filters them to
aggregable ereports, and folds them into a per-device accumulator
(class counts, day counts, ordered history, first-seen day order), then
renders a text report, optionally enriched from a hardware inventory
(hwgrok) snapshot.

Shallow embedding conventions:
  - Rust HashMap values are modelled as association lists
    (List (String × α)) with in-place update of the first matching key
    and append for a fresh key; lookup is first-match.  Iteration order
    of the model is the insertion order (the HashMap order itself is
    unspecified in Rust).
  - u32 counters are Nat with arithmetic taken mod 2 ^ 32 at each
    increment (release-mode wrapping semantics).
  - Fallible paths (Vec index out of bounds on an empty __tod, the
    chrono out-of-range panic) are an Except error.
  - println output is a List String of lines (stdout); eprintln output a
    separate List String (stderr).
-/

namespace FmLogReport

/-- Wrap-around modulus of the u32 occurrence counters. -/
def u32Mod : Nat := 2 ^ 32

/-- Models Rust str::starts_with on the character sequence. -/
def strStartsWith (s pat : String) : Bool := pat.data.isPrefixOf s.data

/-- Helper for strContains: does pat occur as a contiguous run inside s. -/
def hasInfix : List Char → List Char → Bool
  | [], pat => pat.isEmpty
  | c :: t, pat => pat.isPrefixOf (c :: t) || hasInfix t pat

/-- Models Rust str::contains on the character sequence. -/
def strContains (s pat : String) : Bool := hasInfix s.data pat.data

/-- First-match lookup in an association list: the model of HashMap::get
and of Entry inspection. -/
def alookup {α : Type} : List (String × α) → String → Option α
  | [], _ => none
  | (k, v) :: t, q => if q = k then some v else alookup t q

/-- Store a value under a key: replaces the first binding of the key in
place, appends a fresh binding otherwise.  The model of HashMap::insert
and of writing through an occupied Entry. -/
def aset {α : Type} : List (String × α) → String → α → List (String × α)
  | [], q, v => [(q, v)]
  | (k, w) :: t, q, v => if q = k then (q, v) :: t else (k, w) :: aset t q v

/-- Detector payload of an ereport (src/src/lib.rs lines 46-51).  The
device-path member is optional in the JSON. -/
structure Detector where
  scheme : String
  device_path : Option String
  deriving DecidableEq, Repr

/-- A fully deserialized ereport (src/src/lib.rs lines 38-44).  The Rust
field named class is called cls here (class is a Lean keyword); __tod is
the tod sequence, first element = Unix epoch seconds. -/
structure Ereport where
  cls : String
  detector : Detector
  tod : List Int
  deriving DecidableEq, Repr

/-- Per-device accumulator (src/src/lib.rs lines 53-59): ereport counts
keyed by class, ereport counts keyed by day string, the ordered ereport
history, and the day keys in first-seen order. -/
structure DeviceHashEnt where
  ereport_class_hash : List (String × Nat)
  ereport_ts_hash : List (String × Nat)
  ereports : List Ereport
  ereports_ts : List String
  deriving DecidableEq, Repr

/-- DeviceHashEnt::new (src/src/lib.rs lines 61-79): a fresh accumulator
seeded with a single ereport and its day key. -/
def DeviceHashEnt.new (ereport : Ereport) (ts : String) : DeviceHashEnt :=
  { ereport_class_hash := [(ereport.cls, 1)]
    ereport_ts_hash := [(ts, 1)]
    ereports := [ereport]
    ereports_ts := [ts] }

/-- Proleptic-Gregorian date of a day count relative to 1970-01-01
(the civil-from-days algorithm used by chrono): (year, month, day). -/
def civilFromDays (z0 : Int) : Int × Int × Int :=
  let z := z0 + 719468
  let era := z.fdiv 146097
  let doe := z - era * 146097
  let yoe := (doe - doe.fdiv 1460 + doe.fdiv 36524 - doe.fdiv 146096).fdiv 365
  let y := yoe + era * 400
  let doy := doe - (365 * yoe + yoe.fdiv 4 - yoe.fdiv 100)
  let mp := (5 * doy + 2).fdiv 153
  let d := doy - (153 * mp + 2).fdiv 5 + 1
  let m := if mp < 10 then mp + 3 else mp - 9
  (if m ≤ 2 then y + 1 else y, m, d)

/-- Decimal rendering of a Nat, zero-padded on the left to width w. -/
def padNum (w : Nat) (n : Nat) : String :=
  let s := Nat.repr n
  if s.length < w then String.mk (List.replicate (w - s.length) '0') ++ s else s

/-- Year field of the %Y-%m-%d format: at least four digits, a leading
minus sign for negative years. -/
def yearStr (y : Int) : String :=
  if y < 0 then "-" ++ padNum 4 (-y).toNat else padNum 4 y.toNat

/-- The %Y-%m-%d rendering of a (year, month, day) triple. -/
def formatDate : Int × Int × Int → String
  | (y, m, d) => yearStr y ++ "-" ++ padNum 2 m.toNat ++ "-" ++ padNum 2 d.toNat

/-- get_event_timestamp (src/src/lib.rs lines 133-137).  Models
chrono NaiveDateTime::from_timestamp(secs, 0) followed by
format("%Y-%m-%d"): the date is the UTC calendar day of the 86400-second
block the timestamp falls in; chrono panics (modelled as none) when the
resulting year leaves its representable range -262144..=262143. -/
def getEventTimestamp (secs : Int) : Option String :=
  let days := secs.fdiv 86400
  let ymd := civilFromDays days
  if ymd.1 < -262144 ∨ 262143 < ymd.1 then none else some (formatDate ymd)

/-- One increment through the HashMap Entry API on a u32 counter map:
vacant inserts 1, occupied adds 1 with u32 wrap-around
(src/src/lib.rs lines 163-179). -/
def bump (m : List (String × Nat)) (k : String) : List (String × Nat) :=
  match alookup m k with
  | none => aset m k 1
  | some v => aset m k ((v + 1) % u32Mod)

/-- The device map: HashMap from device path to accumulator. -/
def DevMap : Type := List (String × DeviceHashEnt)

/-- The Entry::Occupied branch of process_dev_event
(src/src/lib.rs lines 162-184): bump the class counter, bump the day
counter (remembering whether the day key is new), push the ereport, and
append the day key to the order vector when it is new. -/
def stepEnt (ent : DeviceHashEnt) (ereport : Ereport) (ts : String) : DeviceHashEnt :=
  let new_ts := (alookup ent.ereport_ts_hash ts).isNone
  { ereport_class_hash := bump ent.ereport_class_hash ereport.cls
    ereport_ts_hash := bump ent.ereport_ts_hash ts
    ereports := ent.ereports ++ [ereport]
    ereports_ts := if new_ts then ent.ereports_ts ++ [ts] else ent.ereports_ts }

/-- process_dev_event (src/src/lib.rs lines 149-187).  Error cases model
the panics reachable from the source: indexing tod[0] on an empty __tod
vector, and the chrono out-of-range panic inside get_event_timestamp. -/
def processDevEvent (device_hash : DevMap) (device_path : String)
    (ereport : Ereport) : Except String DevMap :=
  match ereport.tod with
  | [] => Except.error "index out of bounds: tod is empty"
  | t :: _ =>
    match getEventTimestamp t with
    | none => Except.error "invalid or out-of-range datetime"
    | some ts =>
      match alookup device_hash device_path with
      | none => Except.ok (aset device_hash device_path (DeviceHashEnt.new ereport ts))
      | some ent => Except.ok (aset device_hash device_path (stepEnt ent ereport ts))

/-- A parsed JSON log line, as far as deserialization can see it.  The
cheap first-pass FmEvent parse (src/src/lib.rs lines 33-36) reads only
cls; the full Ereport parse additionally needs the detector member
(device-path optional inside it) and the __tod sequence and fails when
the detector member is missing, which is the structural failure mode the
excluded ereport.fm. and ereport.fs. classes are known for. -/
structure RawEvent where
  cls : String
  detector : Option Detector
  tod : List Int
  deriving DecidableEq, Repr

/-- The full Ereport deserialization of a line (src/src/lib.rs line 236):
succeeds exactly when the detector member is present. -/
def parseEreport (e : RawEvent) : Option Ereport :=
  e.detector.map (fun d => { cls := e.cls, detector := d, tod := e.tod })

/-- The per-line event loop of run (src/src/lib.rs lines 217-246),
carrying the device map and the eprintln diagnostic lines.  A full-parse
failure or a process_dev_event failure aborts the run. -/
def runEvents : List RawEvent → DevMap → List String →
    Except String (DevMap × List String)
  | [], device_hash, errs => Except.ok (device_hash, errs)
  | ev :: rest, device_hash, errs =>
    if !(strStartsWith ev.cls "ereport.") then
      runEvents rest device_hash errs
    else if strStartsWith ev.cls "ereport.fm." || strStartsWith ev.cls "ereport.fs." then
      runEvents rest device_hash errs
    else
      match parseEreport ev with
      | none => Except.error "json parse error: missing field detector"
      | some ereport =>
        match ereport.detector.device_path with
        | some dp =>
          match processDevEvent device_hash dp ereport with
          | Except.error e => Except.error e
          | Except.ok dh => runEvents rest dh errs
        | none =>
          runEvents rest device_hash
            (errs ++ ["No device path - skipping (" ++ ev.cls ++ ")"])

/-- hwgrok PCI device record (src/src/lib.rs lines 96-109). -/
structure HwGrokPciDevices where
  label : String
  fmri : String
  pci_vendor_name : String
  pci_device_name : String
  pci_subsystem_name : String
  pci_device_path : String
  deriving DecidableEq, Repr

/-- hwgrok disk record (src/src/lib.rs lines 119-131). -/
structure HwGrokDisk where
  fmri : String
  manufacturer : String
  model : String
  serial_number : String
  disk_firmware_rev : String
  disk_device_path : String
  deriving DecidableEq, Repr

/-- hwgrok drive-bay record (src/src/lib.rs lines 111-117); the disk
member is optional (an empty bay). -/
structure HwGrokDriveBays where
  label : String
  fmri : String
  disk : Option HwGrokDisk
  deriving DecidableEq, Repr

/-- hwgrok snapshot (src/src/lib.rs lines 88-94). -/
structure HwGrok where
  pci_devices : List HwGrokPciDevices
  drive_bays : List HwGrokDriveBays
  deriving DecidableEq, Repr

/-- HwGrok::default() (src/src/lib.rs line 209): both sequences empty,
used when no hwgrok path is supplied. -/
def HwGrok.default : HwGrok := { pci_devices := [], drive_bays := [] }

/-- One println line in the {0: <40} {1} format: the first field padded
on the right with spaces to at least 40 characters, a space, the second
field. -/
def fmtLine (a b : String) : String :=
  (if a.length < 40 then a ++ String.mk (List.replicate (40 - a.length) ' ') else a)
    ++ " " ++ b

/-- The five enrichment lines printed for a matching disk
(src/src/lib.rs lines 262-271). -/
def diskLines (bay : HwGrokDriveBays) (disk : HwGrokDisk) : List String :=
  [fmtLine "Disk Location:" bay.label,
   fmtLine "Disk Manufacturer:" disk.manufacturer,
   fmtLine "Disk Model:" disk.model,
   fmtLine "Disk Serial:" disk.serial_number,
   fmtLine "Firmware Rev:" disk.disk_firmware_rev]

/-- The three enrichment lines printed for a matching PCI device
(src/src/lib.rs lines 285-290). -/
def pciLines (pd : HwGrokPciDevices) : List String :=
  [fmtLine "Vendor Name:" pd.pci_vendor_name,
   fmtLine "Device Name:" pd.pci_device_name,
   fmtLine "Subsystem Name:" pd.pci_subsystem_name]

/-- The enrichment section of one device report
(src/src/lib.rs lines 253-294).  Note the source scans the whole
sequence and prints for every matching entry: the loop body ends in
continue, not break. -/
def enrichLines (devpath : String) (hwgrok : HwGrok) : List String :=
  if strStartsWith devpath "/pci" && strContains devpath "disk" then
    hwgrok.drive_bays.flatMap (fun bay =>
      match bay.disk with
      | some disk => if disk.disk_device_path = devpath then diskLines bay disk else []
      | none => [])
  else if strStartsWith devpath "/pci" then
    hwgrok.pci_devices.flatMap (fun pd =>
      if devpath = pd.pci_device_path then pciLines pd else [])
  else []

/-- The count printed for one day key (src/src/lib.rs lines 304-305):
the source unwraps the hash lookup; the day-order invariant (see the C4
theorem) guarantees the lookup succeeds, so the total stand-in value 0
for the impossible none case is never rendered on reachable states. -/
def tsCountLine (devent : DeviceHashEnt) (ts : String) : String :=
  fmtLine ts (Nat.repr ((alookup devent.ereport_ts_hash ts).getD 0))

/-- The report section of one device (src/src/lib.rs lines 251-307), one
list element per println call (embedded newline characters kept). -/
def renderDevice (devpath : String) (devent : DeviceHashEnt)
    (hwgrok : HwGrok) : List String :=
  [String.mk (List.replicate 75 '='), fmtLine "Device Path:" devpath]
  ++ enrichLines devpath hwgrok
  ++ [fmtLine "Total ereports:" (Nat.repr devent.ereports.length) ++ "\n",
      fmtLine "class" "# occurences",
      fmtLine "-----" "------------"]
  ++ devent.ereport_class_hash.map (fun kv => fmtLine kv.1 (Nat.repr kv.2))
  ++ ["\nEvent Occurrence Distribution", "-----------------------------"]
  ++ devent.ereports_ts.map (tsCountLine devent)
  ++ [""]

/-- The whole report (src/src/lib.rs lines 249-308): the leading empty
println, then one section per device map entry, walked in the map order
(insertion order in this model). -/
def render (device_hash : DevMap) (hwgrok : HwGrok) : List String :=
  "" :: List.flatMap device_hash (fun kv => renderDevice kv.1 kv.2 hwgrok)

/-- run (src/src/lib.rs lines 203-311) over already-parsed input lines:
the result is (stdout report lines, stderr diagnostic lines).  File I/O
and JSON decoding proper are outside the model; an absent hwgrok file is
HwGrok.default. -/
def run (hwgrok : HwGrok) (log : List RawEvent) :
    Except String (List String × List String) :=
  match runEvents log [] [] with
  | Except.error e => Except.error e
  | Except.ok (dh, errs) => Except.ok (render dh hwgrok, errs)

/-- Folding a list of (device path, ereport) pairs through
process_dev_event: an arbitrary sequence of admit calls. -/
def runAdmits : List (String × Ereport) → DevMap → Except String DevMap
  | [], device_hash => Except.ok device_hash
  | (dp, er) :: rest, device_hash =>
    match processDevEvent device_hash dp er with
    | Except.error e => Except.error e
    | Except.ok dh => runAdmits rest dh

/-- Sum of the counter values of a counter map (specification side). -/
def sumValues (m : List (String × Nat)) : Nat := (m.map Prod.snd).sum

/-- First occurrence filter (specification side): the distinct elements
of a list in the order each first appears.  seen accumulates what has
appeared already. -/
def firstOccurAux (seen : List String) : List String → List String
  | [] => []
  | x :: xs =>
    if x ∈ seen then firstOccurAux seen xs
    else x :: firstOccurAux (x :: seen) xs

/-- The distinct elements of a list in first-appearance order. -/
def firstOccur (l : List String) : List String := firstOccurAux [] l

/-- The day key an admitted ereport was bucketed under (specification
side); the dummy values are unreachable for ereports a successful admit
has stored. -/
def tsOfE (e : Ereport) : String :=
  match e.tod with
  | [] => ""
  | t :: _ => (getEventTimestamp t).getD ""

/-! ### Association-list lemmas -/

theorem alookup_aset_self {α : Type} (m : List (String × α)) (k : String) (v : α) :
    alookup (aset m k v) k = some v := by
  induction m with
  | nil => simp [aset, alookup]
  | cons p t ih =>
    obtain ⟨k1, v1⟩ := p
    by_cases h : k = k1
    · subst h; simp [aset, alookup]
    · simp [aset, alookup, h, ih]

theorem alookup_aset_ne {α : Type} (m : List (String × α)) (k q : String) (v : α)
    (h : q ≠ k) : alookup (aset m k v) q = alookup m q := by
  induction m with
  | nil => simp [aset, alookup, h]
  | cons p t ih =>
    obtain ⟨k1, v1⟩ := p
    by_cases h1 : k = k1
    · subst h1; simp [aset, alookup, h]
    · by_cases h2 : q = k1 <;> simp [aset, alookup, h1, h2, ih]

theorem sumValues_cons (k : String) (v : Nat) (t : List (String × Nat)) :
    sumValues ((k, v) :: t) = v + sumValues t := by
  simp [sumValues]

theorem value_le_sumValues (m : List (String × Nat)) (k : String) (v : Nat)
    (h : alookup m k = some v) : v ≤ sumValues m := by
  induction m with
  | nil => simp [alookup] at h
  | cons p t ih =>
    obtain ⟨k1, v1⟩ := p
    rw [sumValues_cons]
    by_cases h1 : k = k1
    · simp [alookup, h1] at h
      omega
    · simp [alookup, h1] at h
      have := ih h
      omega

theorem sumValues_aset_none (m : List (String × Nat)) (k : String) (v : Nat)
    (h : alookup m k = none) : sumValues (aset m k v) = sumValues m + v := by
  induction m with
  | nil => simp [aset, sumValues]
  | cons p t ih =>
    obtain ⟨k1, v1⟩ := p
    by_cases h1 : k = k1
    · simp [alookup, h1] at h
    · simp [alookup, h1] at h
      rw [aset, if_neg h1, sumValues_cons, sumValues_cons, ih h]
      omega

theorem sumValues_aset_some (m : List (String × Nat)) (k : String) (v w : Nat)
    (h : alookup m k = some w) : sumValues (aset m k v) + w = sumValues m + v := by
  induction m with
  | nil => simp [alookup] at h
  | cons p t ih =>
    obtain ⟨k1, v1⟩ := p
    by_cases h1 : k = k1
    · subst h1
      simp [alookup] at h
      subst h
      simp [aset, sumValues_cons]
      omega
    · simp [alookup, h1] at h
      simp only [aset, if_neg h1, sumValues_cons]
      have := ih h
      omega

/-! ### bump lemmas -/

theorem alookup_bump_self (m : List (String × Nat)) (k : String) :
    alookup (bump m k) k =
      some (match alookup m k with | none => 1 | some v => (v + 1) % u32Mod) := by
  unfold bump
  cases h : alookup m k <;> simp [alookup_aset_self]

theorem alookup_bump_ne (m : List (String × Nat)) (k q : String) (h : q ≠ k) :
    alookup (bump m k) q = alookup m q := by
  unfold bump
  cases h1 : alookup m k <;> simp [alookup_aset_ne _ _ _ _ h]

theorem isSome_alookup_bump (m : List (String × Nat)) (k q : String) :
    (alookup (bump m k) q).isSome = true ↔ q = k ∨ (alookup m q).isSome = true := by
  by_cases h : q = k
  · subst h
    rw [alookup_bump_self]
    simp
  · rw [alookup_bump_ne _ _ _ h]
    simp [h]

theorem sumValues_bump_modeq (m : List (String × Nat)) (k : String) :
    Nat.ModEq u32Mod (sumValues (bump m k)) (sumValues m + 1) := by
  unfold bump
  cases h : alookup m k with
  | none =>
    rw [sumValues_aset_none _ _ _ h]
  | some v =>
    have hs := sumValues_aset_some m k ((v + 1) % u32Mod) v h
    have h1 : Nat.ModEq u32Mod (sumValues (aset m k ((v + 1) % u32Mod)) + v)
        (sumValues m + (v + 1)) := by
      rw [hs]
      exact Nat.ModEq.add_left _ (Nat.mod_modEq _ _)
    have h2 : sumValues m + (v + 1) = (sumValues m + 1) + v := by omega
    rw [h2] at h1
    exact h1.add_right_cancel' v

theorem sumValues_bump_exact (m : List (String × Nat)) (k : String)
    (h : sumValues m + 1 < u32Mod) : sumValues (bump m k) = sumValues m + 1 := by
  unfold bump
  cases h1 : alookup m k with
  | none => rw [sumValues_aset_none _ _ _ h1]
  | some v =>
    dsimp only
    have hv := value_le_sumValues m k v h1
    have hlt : v + 1 < u32Mod := by omega
    have hmod : (v + 1) % u32Mod = v + 1 := Nat.mod_eq_of_lt hlt
    have hs := sumValues_aset_some m k ((v + 1) % u32Mod) v h1
    omega

/-! ### firstOccur lemmas -/

theorem mem_firstOccurAux (x : String) (l : List String) : ∀ (seen : List String),
    x ∈ firstOccurAux seen l ↔ x ∈ l ∧ x ∉ seen := by
  induction l with
  | nil => intro seen; simp [firstOccurAux]
  | cons y t ih =>
    intro seen
    by_cases hy : y ∈ seen
    · rw [firstOccurAux, if_pos hy, ih]
      by_cases hxy : x = y
      · subst hxy; simp [hy]
      · simp [hxy]
    · rw [firstOccurAux, if_neg hy]
      by_cases hxy : x = y
      · subst hxy; simp [hy]
      · simp only [List.mem_cons, hxy, false_or, ih, List.mem_cons]

theorem nodup_firstOccurAux (l : List String) : ∀ (seen : List String),
    (firstOccurAux seen l).Nodup := by
  induction l with
  | nil => intro seen; simp [firstOccurAux]
  | cons y t ih =>
    intro seen
    by_cases hy : y ∈ seen
    · rw [firstOccurAux, if_pos hy]; exact ih seen
    · rw [firstOccurAux, if_neg hy]
      refine List.Nodup.cons ?_ (ih (y :: seen))
      intro hc
      have := (mem_firstOccurAux y t (y :: seen)).mp hc
      exact this.2 (List.mem_cons_self y seen)

theorem firstOccurAux_append_singleton (x : String) (l : List String) :
    ∀ (seen : List String), firstOccurAux seen (l ++ [x]) =
      firstOccurAux seen l ++ (if x ∈ seen ∨ x ∈ l then [] else [x]) := by
  induction l with
  | nil =>
    intro seen
    by_cases hx : x ∈ seen <;> simp [firstOccurAux, hx]
  | cons y t ih =>
    intro seen
    by_cases hy : y ∈ seen
    · rw [List.cons_append, firstOccurAux, if_pos hy, firstOccurAux, if_pos hy, ih]
      by_cases hxy : x = y
      · subst hxy
        simp [hy]
      · simp [hxy]
    · rw [List.cons_append, firstOccurAux, if_neg hy, firstOccurAux, if_neg hy,
        ih (y :: seen)]
      have hiff : (x ∈ y :: seen ∨ x ∈ t) ↔ (x ∈ seen ∨ x ∈ y :: t) := by
        simp only [List.mem_cons]
        tauto
      by_cases hc : x ∈ seen ∨ x ∈ y :: t
      · rw [if_pos (hiff.mpr hc), if_pos hc, List.cons_append]
      · rw [if_neg (fun h => hc (hiff.mp h)), if_neg hc, List.cons_append]

theorem mem_firstOccur (x : String) (l : List String) : x ∈ firstOccur l ↔ x ∈ l := by
  rw [firstOccur, mem_firstOccurAux]
  simp

theorem nodup_firstOccur (l : List String) : (firstOccur l).Nodup :=
  nodup_firstOccurAux l []

theorem firstOccur_append_singleton (l : List String) (x : String) :
    firstOccur (l ++ [x]) = firstOccur l ++ (if x ∈ l then [] else [x]) := by
  rw [firstOccur, firstOccurAux_append_singleton x l []]
  simp [firstOccur]

/-! ### The per-entry invariant and its preservation -/

/-- The accumulator invariant of the spec: the day-order vector matches
the key set of the day-count hash and lists the day keys of the history
in first-seen order, and both counter sums track the history length
(exactly below the u32 wrap, mod 2 ^ 32 always). -/
structure EntInv (ent : DeviceHashEnt) : Prop where
  ts_mem : ∀ k, k ∈ ent.ereports_ts ↔ (alookup ent.ereport_ts_hash k).isSome = true
  ts_order : ent.ereports_ts = firstOccur (ent.ereports.map tsOfE)
  sum_class : Nat.ModEq u32Mod (sumValues ent.ereport_class_hash) ent.ereports.length
  sum_ts : Nat.ModEq u32Mod (sumValues ent.ereport_ts_hash) ent.ereports.length
  exact_class : ent.ereports.length < u32Mod →
    sumValues ent.ereport_class_hash = ent.ereports.length
  exact_ts : ent.ereports.length < u32Mod →
    sumValues ent.ereport_ts_hash = ent.ereports.length

theorem entInv_new (e : Ereport) (t : Int) (r : List Int) (ts : String)
    (h1 : e.tod = t :: r) (h2 : getEventTimestamp t = some ts) :
    EntInv (DeviceHashEnt.new e ts) := by
  have hts : tsOfE e = ts := by simp [tsOfE, h1, h2]
  constructor
  · intro k
    by_cases hk : k = ts <;> simp [DeviceHashEnt.new, alookup, hk]
  · simp [DeviceHashEnt.new, hts, firstOccur, firstOccurAux]
  · exact Nat.ModEq.refl 1
  · exact Nat.ModEq.refl 1
  · intro _; rfl
  · intro _; rfl

theorem entInv_step (ent : DeviceHashEnt) (e : Ereport) (t : Int) (r : List Int)
    (ts : String) (h1 : e.tod = t :: r) (h2 : getEventTimestamp t = some ts)
    (hInv : EntInv ent) : EntInv (stepEnt ent e ts) := by
  have hts : tsOfE e = ts := by simp [tsOfE, h1, h2]
  have hmap : (ent.ereports ++ [e]).map tsOfE = ent.ereports.map tsOfE ++ [ts] := by
    simp [hts]
  have hmem_map : ts ∈ ent.ereports.map tsOfE ↔
      (alookup ent.ereport_ts_hash ts).isSome = true := by
    rw [← mem_firstOccur, ← hInv.ts_order, hInv.ts_mem]
  constructor
  · intro k
    show k ∈ (if (alookup ent.ereport_ts_hash ts).isNone
        then ent.ereports_ts ++ [ts] else ent.ereports_ts) ↔ _
    by_cases hk : k = ts
    · subst hk
      rw [show (alookup (stepEnt ent e k).ereport_ts_hash k) =
          alookup (bump ent.ereport_ts_hash k) k from rfl, alookup_bump_self]
      cases hl : alookup ent.ereport_ts_hash k <;>
        simp [hl, hInv.ts_mem k]
    · have hne : (alookup (stepEnt ent e ts).ereport_ts_hash k) =
          alookup ent.ereport_ts_hash k := alookup_bump_ne _ _ _ hk
      rw [hne]
      cases hl : alookup ent.ereport_ts_hash ts <;>
        simp [hl, hk, hInv.ts_mem k]
  · show (if (alookup ent.ereport_ts_hash ts).isNone
        then ent.ereports_ts ++ [ts] else ent.ereports_ts) = _
    rw [show (stepEnt ent e ts).ereports = ent.ereports ++ [e] from rfl, hmap,
      firstOccur_append_singleton, ← hInv.ts_order]
    cases hl : alookup ent.ereport_ts_hash ts with
    | none =>
      have : ts ∉ ent.ereports.map tsOfE := by
        rw [hmem_map, hl]; simp
      simp [this]
    | some v =>
      have : ts ∈ ent.ereports.map tsOfE := by
        rw [hmem_map, hl]; simp
      simp [this]
  · show Nat.ModEq u32Mod (sumValues (bump ent.ereport_class_hash e.cls))
      (ent.ereports ++ [e]).length
    rw [List.length_append, List.length_singleton]
    exact (sumValues_bump_modeq _ _).trans (hInv.sum_class.add_right 1)
  · show Nat.ModEq u32Mod (sumValues (bump ent.ereport_ts_hash ts))
      (ent.ereports ++ [e]).length
    rw [List.length_append, List.length_singleton]
    exact (sumValues_bump_modeq _ _).trans (hInv.sum_ts.add_right 1)
  · intro hlen
    have hlen' : ent.ereports.length + 1 < u32Mod := by
      simpa [stepEnt] using hlen
    have he := hInv.exact_class (by omega)
    show sumValues (bump ent.ereport_class_hash e.cls) = (ent.ereports ++ [e]).length
    rw [List.length_append, List.length_singleton,
      sumValues_bump_exact _ _ (by omega), he]
  · intro hlen
    have hlen' : ent.ereports.length + 1 < u32Mod := by
      simpa [stepEnt] using hlen
    have he := hInv.exact_ts (by omega)
    show sumValues (bump ent.ereport_ts_hash ts) = (ent.ereports ++ [e]).length
    rw [List.length_append, List.length_singleton,
      sumValues_bump_exact _ _ (by omega), he]

/-! ### Inversion of process_dev_event and the map-level invariant -/

theorem processDevEvent_ok_cases (dh : DevMap) (dp : String) (e : Ereport)
    (dh' : DevMap) (h : processDevEvent dh dp e = Except.ok dh') :
    ∃ t r ts, e.tod = t :: r ∧ getEventTimestamp t = some ts ∧
      ((alookup dh dp = none ∧ dh' = aset dh dp (DeviceHashEnt.new e ts)) ∨
       (∃ ent, alookup dh dp = some ent ∧ dh' = aset dh dp (stepEnt ent e ts))) := by
  unfold processDevEvent at h
  cases htod : e.tod with
  | nil => rw [htod] at h; exact absurd h (by simp)
  | cons t r =>
    rw [htod] at h
    dsimp only at h
    cases hts : getEventTimestamp t with
    | none => rw [hts] at h; exact absurd h (by simp)
    | some ts =>
      rw [hts] at h
      cases hdl : alookup dh dp with
      | none =>
        rw [hdl] at h
        refine ⟨t, r, ts, rfl, hts, Or.inl ⟨rfl, ?_⟩⟩
        simpa using h.symm
      | some ent =>
        rw [hdl] at h
        refine ⟨t, r, ts, rfl, hts, Or.inr ⟨ent, rfl, ?_⟩⟩
        simpa using h.symm

/-- Every entry of the device map satisfies the accumulator invariant. -/
def MapInv (dh : DevMap) : Prop :=
  ∀ dev ent, alookup dh dev = some ent → EntInv ent

theorem mapInv_nil : MapInv [] := by
  intro dev ent h
  simp [alookup] at h

theorem processDevEvent_preserves_mapInv (dh : DevMap) (dp : String) (e : Ereport)
    (dh' : DevMap) (hInv : MapInv dh) (h : processDevEvent dh dp e = Except.ok dh') :
    MapInv dh' := by
  obtain ⟨t, r, ts, htod, hts, hcase⟩ := processDevEvent_ok_cases dh dp e dh' h
  rcases hcase with ⟨hdl, rfl⟩ | ⟨ent, hdl, rfl⟩
  · intro dev entx hx
    by_cases hdev : dev = dp
    · subst hdev
      rw [alookup_aset_self] at hx
      cases hx
      exact entInv_new e t r ts htod hts
    · rw [alookup_aset_ne _ _ _ _ hdev] at hx
      exact hInv dev entx hx
  · intro dev entx hx
    by_cases hdev : dev = dp
    · subst hdev
      rw [alookup_aset_self] at hx
      cases hx
      exact entInv_step ent e t r ts htod hts (hInv _ _ hdl)
    · rw [alookup_aset_ne _ _ _ _ hdev] at hx
      exact hInv dev entx hx

theorem runAdmits_preserves_mapInv (evs : List (String × Ereport)) :
    ∀ (dh dh' : DevMap), MapInv dh → runAdmits evs dh = Except.ok dh' →
      MapInv dh' := by
  induction evs with
  | nil =>
    intro dh dh' hInv h
    simp [runAdmits] at h
    cases h
    exact hInv
  | cons p rest ih =>
    intro dh dh' hInv h
    obtain ⟨dp, er⟩ := p
    rw [runAdmits] at h
    cases hstep : processDevEvent dh dp er with
    | error msg => rw [hstep] at h; exact absurd h (by simp)
    | ok dh1 =>
      rw [hstep] at h
      exact ih dh1 dh' (processDevEvent_preserves_mapInv dh dp er dh1 hInv hstep) h

theorem runAdmits_mapInv (evs : List (String × Ereport)) (m : DevMap)
    (h : runAdmits evs [] = Except.ok m) : MapInv m :=
  runAdmits_preserves_mapInv evs [] m mapInv_nil h

/-! ### A concrete ereport and the u32 wrap-around closed form -/

/-- A concrete aggregable ereport: class "ereport.io.test", device path
"/p", event time 0 (1970-01-01). -/
def testEreport : Ereport :=
  { cls := "ereport.io.test"
    detector := { scheme := "dev", device_path := some "/p" }
    tod := [0] }

theorem getEventTimestamp_zero : getEventTimestamp 0 = some "1970-01-01" := by decide

theorem runAdmits_replicate (n : Nat) : ∀ (v : Nat) (hist : List Ereport),
    v < u32Mod →
    runAdmits (List.replicate n ("/p", testEreport))
      [("/p", { ereport_class_hash := [("ereport.io.test", v)]
                ereport_ts_hash := [("1970-01-01", v)]
                ereports := hist
                ereports_ts := ["1970-01-01"] })] =
    Except.ok [("/p", { ereport_class_hash := [("ereport.io.test", (v + n) % u32Mod)]
                        ereport_ts_hash := [("1970-01-01", (v + n) % u32Mod)]
                        ereports := hist ++ List.replicate n testEreport
                        ereports_ts := ["1970-01-01"] })] := by
  induction n with
  | zero =>
    intro v hist hv
    simp [runAdmits, Nat.mod_eq_of_lt hv]
  | succ k ih =>
    intro v hist hv
    rw [List.replicate_succ, runAdmits]
    have hstep : processDevEvent
        [("/p", { ereport_class_hash := [("ereport.io.test", v)]
                  ereport_ts_hash := [("1970-01-01", v)]
                  ereports := hist
                  ereports_ts := ["1970-01-01"] })] "/p" testEreport =
      Except.ok [("/p", { ereport_class_hash := [("ereport.io.test", (v + 1) % u32Mod)]
                          ereport_ts_hash := [("1970-01-01", (v + 1) % u32Mod)]
                          ereports := hist ++ [testEreport]
                          ereports_ts := ["1970-01-01"] })] := by
      simp [processDevEvent, testEreport, getEventTimestamp_zero, stepEnt, bump,
        alookup, aset]
    rw [hstep]
    dsimp only
    have hv1 : (v + 1) % u32Mod < u32Mod := Nat.mod_lt _ (by norm_num [u32Mod])
    have := ih ((v + 1) % u32Mod) (hist ++ [testEreport]) hv1
    rw [Nat.mod_add_mod] at this
    rw [this]
    have harr : v + 1 + k = v + (k + 1) := by omega
    have hrep : hist ++ [testEreport] ++ List.replicate k testEreport =
        hist ++ List.replicate (k + 1) testEreport := by
      rw [List.append_assoc, List.singleton_append, ← List.replicate_succ]
    rw [harr, hrep]

/-- The accumulator after 2 ^ 32 admits of testEreport: both counters
have wrapped to 0. -/
def wrapEnt : DeviceHashEnt :=
  { ereport_class_hash := [("ereport.io.test", 0)]
    ereport_ts_hash := [("1970-01-01", 0)]
    ereports := List.replicate u32Mod testEreport
    ereports_ts := ["1970-01-01"] }

theorem repeatAdmit_wrap :
    runAdmits (List.replicate u32Mod ("/p", testEreport)) [] =
      Except.ok [("/p", wrapEnt)] := by
  have hpos : 0 < u32Mod := by norm_num [u32Mod]
  have hsucc : u32Mod = (u32Mod - 1) + 1 := by omega
  rw [hsucc, List.replicate_succ, runAdmits]
  have hstep : processDevEvent [] "/p" testEreport =
      Except.ok [("/p", DeviceHashEnt.new testEreport "1970-01-01")] := by
    simp [processDevEvent, testEreport, getEventTimestamp_zero, alookup, aset]
  rw [hstep]
  have h1 : (1 : Nat) < u32Mod := by norm_num [u32Mod]
  have := runAdmits_replicate (u32Mod - 1) 1 [testEreport] h1
  have hn : 1 + (u32Mod - 1) = u32Mod := by omega
  rw [hn, Nat.mod_self] at this
  have hrep : [testEreport] ++ List.replicate (u32Mod - 1) testEreport =
      List.replicate u32Mod testEreport := by
    rw [List.singleton_append, ← List.replicate_succ, ← hsucc]
  rw [hrep] at this
  show runAdmits (List.replicate (u32Mod - 1) ("/p", testEreport))
      [("/p", DeviceHashEnt.new testEreport "1970-01-01")] = _
  rw [show DeviceHashEnt.new testEreport "1970-01-01" =
    { ereport_class_hash := [("ereport.io.test", 1)]
      ereport_ts_hash := [("1970-01-01", 1)]
      ereports := [testEreport]
      ereports_ts := ["1970-01-01"] } from rfl]
  rw [this]
  rfl

/-! ### Claim theorems: C1, C4, C9 -/

/-- Claim C1, amended: over any sequence of admits, the sum of the
class-count values and the sum of the day-count values are each
congruent to the history length modulo 2 ^ 32, with exact equality
whenever the device has admitted fewer than 2 ^ 32 ereports.  (The
unamended exact equality fails once a u32 counter wraps, see the
counterexample.) -/
theorem c1_sum_invariant_mod (evs : List (String × Ereport)) (m : DevMap)
    (dev : String) (ent : DeviceHashEnt) (h : runAdmits evs [] = Except.ok m)
    (hl : alookup m dev = some ent) :
    Nat.ModEq u32Mod (sumValues ent.ereport_class_hash) ent.ereports.length ∧
    Nat.ModEq u32Mod (sumValues ent.ereport_ts_hash) ent.ereports.length ∧
    (ent.ereports.length < u32Mod →
      sumValues ent.ereport_class_hash = ent.ereports.length ∧
      sumValues ent.ereport_ts_hash = ent.ereports.length) := by
  have hInv := runAdmits_mapInv evs m h dev ent hl
  exact ⟨hInv.sum_class, hInv.sum_ts,
    fun hlt => ⟨hInv.exact_class hlt, hInv.exact_ts hlt⟩⟩

/-- Witness for C1 at one admitted ereport: both sums and the history
length are 1. -/
theorem c1_sum_invariant_mod_witness :
    Nat.ModEq u32Mod 1 1 ∧ Nat.ModEq u32Mod 1 1 ∧
    ((1 : Nat) < u32Mod → (1 : Nat) = 1 ∧ (1 : Nat) = 1) :=
  c1_sum_invariant_mod [("/p", testEreport)]
    [("/p", DeviceHashEnt.new testEreport "1970-01-01")] "/p"
    (DeviceHashEnt.new testEreport "1970-01-01") rfl rfl

/-- Counterexample to C1 as stated: after 2 ^ 32 admits of the same
ereport the stored class counts sum to 0 while the history length is
2 ^ 32, so the exact sum equality fails. -/
theorem c1_counterexample :
    ∃ m ent, runAdmits (List.replicate u32Mod ("/p", testEreport)) [] =
        Except.ok m ∧
      alookup m "/p" = some ent ∧
      sumValues ent.ereport_class_hash ≠ ent.ereports.length := by
  refine ⟨[("/p", wrapEnt)], wrapEnt, repeatAdmit_wrap, ?_, ?_⟩
  · rw [alookup, if_pos rfl]
  · show sumValues [("ereport.io.test", 0)] ≠
      (List.replicate u32Mod testEreport).length
    rw [List.length_replicate]
    show 0 ≠ u32Mod
    norm_num [u32Mod]

/-- Claim C4: over any sequence of admits, the day-order vector is
duplicate-free, its members are exactly the keys the day-count hash
binds, and it lists the day keys of the admitted history in
first-occurrence order. -/
theorem c4_day_order (evs : List (String × Ereport)) (m : DevMap)
    (dev : String) (ent : DeviceHashEnt) (h : runAdmits evs [] = Except.ok m)
    (hl : alookup m dev = some ent) :
    ent.ereports_ts.Nodup ∧
    (∀ k, k ∈ ent.ereports_ts ↔ (alookup ent.ereport_ts_hash k).isSome = true) ∧
    ent.ereports_ts = firstOccur (ent.ereports.map tsOfE) := by
  have hInv := runAdmits_mapInv evs m h dev ent hl
  refine ⟨?_, hInv.ts_mem, hInv.ts_order⟩
  rw [hInv.ts_order]
  exact nodup_firstOccur _

/-- Witness for C4 at one admitted ereport. -/
theorem c4_day_order_witness :
    (["1970-01-01"] : List String).Nodup ∧
    (∀ k, k ∈ (["1970-01-01"] : List String) ↔
      (alookup [("1970-01-01", 1)] k).isSome = true) ∧
    (["1970-01-01"] : List String) = firstOccur ([testEreport].map tsOfE) :=
  c4_day_order [("/p", testEreport)]
    [("/p", DeviceHashEnt.new testEreport "1970-01-01")] "/p"
    (DeviceHashEnt.new testEreport "1970-01-01") rfl rfl

/-- Claim C9: the occurrence counters are u32 values incremented mod
2 ^ 32: an occupied counter at v becomes (v + 1) % 2 ^ 32, and after
2 ^ 32 admits of the same class on the same day both stored counts have
wrapped to 0 while the history holds 2 ^ 32 ereports, so the sum
invariant holds only modulo 2 ^ 32. -/
theorem c9_u32_wrap :
    (∀ (mm : List (String × Nat)) (k : String) (v : Nat), alookup mm k = some v →
      alookup (bump mm k) k = some ((v + 1) % u32Mod)) ∧
    runAdmits (List.replicate u32Mod ("/p", testEreport)) [] =
      Except.ok [("/p", wrapEnt)] ∧
    alookup wrapEnt.ereport_class_hash "ereport.io.test" = some 0 ∧
    alookup wrapEnt.ereport_ts_hash "1970-01-01" = some 0 ∧
    wrapEnt.ereports.length = u32Mod ∧
    Nat.ModEq u32Mod (sumValues wrapEnt.ereport_class_hash)
      wrapEnt.ereports.length := by
  refine ⟨?_, repeatAdmit_wrap,
    by show alookup [("ereport.io.test", 0)] "ereport.io.test" = some 0
       rw [alookup, if_pos rfl],
    by show alookup [("1970-01-01", 0)] "1970-01-01" = some 0
       rw [alookup, if_pos rfl], ?_, ?_⟩
  · intro mm k v hv
    rw [alookup_bump_self, hv]
  · show (List.replicate u32Mod testEreport).length = u32Mod
    rw [List.length_replicate]
  · show Nat.ModEq u32Mod (sumValues [("ereport.io.test", 0)])
      (List.replicate u32Mod testEreport).length
    rw [List.length_replicate]
    show (0 : Nat) % u32Mod = u32Mod % u32Mod
    rw [Nat.mod_self, Nat.zero_mod]
/-! ### Claim C2: the two admit paths and the frame condition -/

/-- Claim C2: when the device path is vacant, admit seeds a fresh
accumulator ({class: 1}, {ts: 1}, [ereport], [ts]); when occupied, it
increments the class counter (inserting at 1 if absent), increments the
day counter (inserting at 1 and appending ts to the day order if
absent), and appends the ereport to the history; no other device map
entry changes. -/
theorem c2_admit_paths (m : DevMap) (dp : String) (e : Ereport) (t : Int)
    (r : List Int) (ts : String) (h1 : e.tod = t :: r)
    (h2 : getEventTimestamp t = some ts) :
    ∃ m', processDevEvent m dp e = Except.ok m' ∧
      (∀ d, d ≠ dp → alookup m' d = alookup m d) ∧
      (alookup m dp = none →
        alookup m' dp = some { ereport_class_hash := [(e.cls, 1)]
                               ereport_ts_hash := [(ts, 1)]
                               ereports := [e]
                               ereports_ts := [ts] }) ∧
      (∀ ent, alookup m dp = some ent →
        ∃ ent', alookup m' dp = some ent' ∧
          ent'.ereports = ent.ereports ++ [e] ∧
          (∀ k, alookup ent'.ereport_class_hash k =
            if k = e.cls then
              some (match alookup ent.ereport_class_hash e.cls with
                    | none => 1
                    | some v => (v + 1) % u32Mod)
            else alookup ent.ereport_class_hash k) ∧
          (∀ k, alookup ent'.ereport_ts_hash k =
            if k = ts then
              some (match alookup ent.ereport_ts_hash ts with
                    | none => 1
                    | some v => (v + 1) % u32Mod)
            else alookup ent.ereport_ts_hash k) ∧
          ent'.ereports_ts = (if alookup ent.ereport_ts_hash ts = none
            then ent.ereports_ts ++ [ts] else ent.ereports_ts)) := by
  have hp : processDevEvent m dp e =
      match alookup m dp with
      | none => Except.ok (aset m dp (DeviceHashEnt.new e ts))
      | some ent => Except.ok (aset m dp (stepEnt ent e ts)) := by
    unfold processDevEvent
    rw [h1]
    dsimp only
    rw [h2]
  cases hdl : alookup m dp with
  | none =>
    rw [hdl] at hp
    refine ⟨aset m dp (DeviceHashEnt.new e ts), hp, ?_, ?_, ?_⟩
    · intro d hd
      exact alookup_aset_ne _ _ _ _ hd
    · intro _
      rw [alookup_aset_self]
      rfl
    · intro ent hent
      exact absurd hent (by simp)
  | some ent =>
    rw [hdl] at hp
    refine ⟨aset m dp (stepEnt ent e ts), hp, ?_, ?_, ?_⟩
    · intro d hd
      exact alookup_aset_ne _ _ _ _ hd
    · intro hc
      exact absurd hc (by simp)
    · intro ent0 hent0
      injection hent0 with he
      subst he
      refine ⟨stepEnt ent e ts, alookup_aset_self _ _ _, rfl, ?_, ?_, ?_⟩
      · intro k
        by_cases hk : k = e.cls
        · subst hk
          rw [if_pos rfl]
          exact alookup_bump_self _ _
        · rw [if_neg hk]
          exact alookup_bump_ne _ _ _ hk
      · intro k
        by_cases hk : k = ts
        · subst hk
          rw [if_pos rfl]
          exact alookup_bump_self _ _
        · rw [if_neg hk]
          exact alookup_bump_ne _ _ _ hk
      · cases hl : alookup ent.ereport_ts_hash ts <;>
          simp [stepEnt, hl]

/-- Witness for C2: admitting testEreport into the empty device map. -/
theorem c2_admit_paths_witness :
    ∃ m', processDevEvent [] "/p" testEreport = Except.ok m' ∧
      (∀ d, d ≠ "/p" → alookup m' d = alookup ([] : DevMap) d) ∧
      (alookup ([] : DevMap) "/p" = none →
        alookup m' "/p" = some { ereport_class_hash := [(testEreport.cls, 1)]
                                 ereport_ts_hash := [("1970-01-01", 1)]
                                 ereports := [testEreport]
                                 ereports_ts := ["1970-01-01"] }) ∧
      (∀ ent, alookup ([] : DevMap) "/p" = some ent →
        ∃ ent', alookup m' "/p" = some ent' ∧
          ent'.ereports = ent.ereports ++ [testEreport] ∧
          (∀ k, alookup ent'.ereport_class_hash k =
            if k = testEreport.cls then
              some (match alookup ent.ereport_class_hash testEreport.cls with
                    | none => 1
                    | some v => (v + 1) % u32Mod)
            else alookup ent.ereport_class_hash k) ∧
          (∀ k, alookup ent'.ereport_ts_hash k =
            if k = "1970-01-01" then
              some (match alookup ent.ereport_ts_hash "1970-01-01" with
                    | none => 1
                    | some v => (v + 1) % u32Mod)
            else alookup ent.ereport_ts_hash k) ∧
          ent'.ereports_ts = (if alookup ent.ereport_ts_hash "1970-01-01" = none
            then ent.ereports_ts ++ ["1970-01-01"] else ent.ereports_ts)) :=
  c2_admit_paths [] "/p" testEreport 0 [] "1970-01-01" rfl (by decide)

/-! ### Claim C7: when admit fails -/

/-- Claim C7, amended: admit fails if and only if the __tod sequence is
empty or its first element is outside the representable date range of
the timestamp derivation; the failure is propagated (a run folding this
admit aborts with the same error).  (The unamended claim, failure only
on an empty __tod, is refuted by the out-of-range counterexample.) -/
theorem c7_admit_failure (m : DevMap) (dp : String) (e : Ereport) :
    ((∃ err, processDevEvent m dp e = Except.error err) ↔
      (e.tod = [] ∨ ∃ t r, e.tod = t :: r ∧ getEventTimestamp t = none)) ∧
    (∀ err rest dh, processDevEvent dh dp e = Except.error err →
      runAdmits ((dp, e) :: rest) dh = Except.error err) := by
  constructor
  · cases htod : e.tod with
    | nil =>
      constructor
      · intro _
        exact Or.inl rfl
      · intro _
        refine ⟨"index out of bounds: tod is empty", ?_⟩
        unfold processDevEvent
        rw [htod]
    | cons t r =>
      cases hts : getEventTimestamp t with
      | none =>
        constructor
        · intro _
          exact Or.inr ⟨t, r, rfl, hts⟩
        · intro _
          refine ⟨"invalid or out-of-range datetime", ?_⟩
          unfold processDevEvent
          rw [htod]
          dsimp only
          rw [hts]
      | some ts =>
        constructor
        · rintro ⟨err, herr⟩
          unfold processDevEvent at herr
          rw [htod] at herr
          dsimp only at herr
          rw [hts] at herr
          cases hdl : alookup m dp <;> rw [hdl] at herr <;>
            exact absurd herr (by simp)
        · rintro (hnil | ⟨t0, r0, heq, hts0⟩)
          · exact absurd hnil (by simp)
          · rw [List.cons.injEq] at heq
            rw [← heq.1] at hts0
            rw [hts0] at hts
            exact absurd hts (by simp)
  · intro err rest dh herr
    rw [runAdmits, herr]

/-- A concrete aggregable ereport whose event time (10 ^ 18 epoch
seconds) lies beyond the representable date range. -/
def hugeEreport : Ereport :=
  { cls := "ereport.io.test"
    detector := { scheme := "dev", device_path := some "/p" }
    tod := [1000000000000000000] }

/-- Counterexample to C7 as stated: an ereport with a non-empty __tod
whose admit nevertheless fails (out-of-range timestamp). -/
theorem c7_counterexample :
    hugeEreport.tod ≠ [] ∧
    processDevEvent [] "/p" hugeEreport =
      Except.error "invalid or out-of-range datetime" := by
  refine ⟨by simp [hugeEreport], ?_⟩
  unfold processDevEvent hugeEreport
  dsimp only
  rw [show getEventTimestamp 1000000000000000000 = none from by decide]

/-! ### Claim C8: day bucketing -/

/-- A second aggregable ereport for the same device, one hour into
1970-01-01. -/
def laterEreport : Ereport :=
  { cls := "ereport.io.test"
    detector := { scheme := "dev", device_path := some "/p" }
    tod := [3600] }

/-- Claim C8: the timestamp bucketer yields the calendar-day string of
the 86400-second UTC day block the epoch time falls in, so two admitted
ereports for one device whose epoch seconds fall on the same UTC
calendar day produce a single day-count entry holding 2 and a single
day-order element. -/
theorem c8_same_day (t1 t2 : Int) (dp : String) (e1 e2 : Ereport)
    (r1 r2 : List Int) (ts : String) (h1 : e1.tod = t1 :: r1)
    (h2 : e2.tod = t2 :: r2) (hday : t1.fdiv 86400 = t2.fdiv 86400)
    (hts : getEventTimestamp t1 = some ts) :
    getEventTimestamp t2 = some ts ∧
    ts = formatDate (civilFromDays (t1.fdiv 86400)) ∧
    ∃ ent, runAdmits [(dp, e1), (dp, e2)] [] = Except.ok [(dp, ent)] ∧
      ent.ereport_ts_hash = [(ts, 2)] ∧ ent.ereports_ts = [ts] ∧
      ent.ereports.length = 2 := by
  have hts2 : getEventTimestamp t2 = some ts := by
    simp only [getEventTimestamp] at hts ⊢
    rw [← hday]
    exact hts
  have htsf : ts = formatDate (civilFromDays (t1.fdiv 86400)) := by
    simp only [getEventTimestamp] at hts
    split at hts
    · exact absurd hts (by simp)
    · rw [Option.some.injEq] at hts
      exact hts.symm
  have hs1 : processDevEvent [] dp e1 =
      Except.ok [(dp, DeviceHashEnt.new e1 ts)] := by
    unfold processDevEvent
    rw [h1]
    dsimp only
    rw [hts]
    dsimp only [alookup, aset]
  have hs2 : processDevEvent [(dp, DeviceHashEnt.new e1 ts)] dp e2 =
      Except.ok [(dp, stepEnt (DeviceHashEnt.new e1 ts) e2 ts)] := by
    unfold processDevEvent
    rw [h2]
    dsimp only
    rw [hts2]
    dsimp only [alookup]
    rw [if_pos rfl]
    dsimp only [aset]
    rw [if_pos rfl]
  refine ⟨hts2, htsf, stepEnt (DeviceHashEnt.new e1 ts) e2 ts, ?_, ?_, ?_, ?_⟩
  · rw [runAdmits, hs1]
    dsimp only
    rw [runAdmits, hs2]
    dsimp only
    rw [runAdmits]
  · show bump [(ts, 1)] ts = [(ts, 2)]
    have h12 : (1 + 1) % u32Mod = 2 := by norm_num [u32Mod]
    simp [bump, alookup, aset, h12]
  · show (if (alookup [(ts, 1)] ts).isNone then [ts] ++ [ts] else [ts]) = [ts]
    simp [alookup]
  · show (DeviceHashEnt.new e1 ts).ereports.length + 1 = 2
    rfl

/-- Witness for C8: epoch times 0 and 3600 fall on 1970-01-01. -/
theorem c8_same_day_witness :
    getEventTimestamp 3600 = some "1970-01-01" ∧
    "1970-01-01" = formatDate (civilFromDays ((0 : Int).fdiv 86400)) ∧
    ∃ ent, runAdmits [("/p", testEreport), ("/p", laterEreport)] [] =
        Except.ok [("/p", ent)] ∧
      ent.ereport_ts_hash = [("1970-01-01", 2)] ∧
      ent.ereports_ts = ["1970-01-01"] ∧
      ent.ereports.length = 2 :=
  c8_same_day 0 3600 "/p" testEreport laterEreport [] [] "1970-01-01"
    rfl rfl (by decide) (by decide)

/-! ### Claim C3: the admission filter -/

theorem strStartsWith_trans (s p q : String) (h1 : strStartsWith s p = true)
    (h2 : strStartsWith p q = true) : strStartsWith s q = true := by
  unfold strStartsWith at *
  rw [List.isPrefixOf_iff_prefix] at *
  exact h2.trans h1

/-- The diagnostic accumulator threads through the loop: running with
initial stderr lines errs yields the same outcome with errs prepended. -/
theorem runEvents_errs (evs : List RawEvent) : ∀ (dh : DevMap) (errs : List String),
    runEvents evs dh errs =
      (runEvents evs dh []).map (fun p => (p.1, errs ++ p.2)) := by
  induction evs with
  | nil =>
    intro dh errs
    simp [runEvents, Except.map]
  | cons ev rest ih =>
    intro dh errs
    cases h1 : strStartsWith ev.cls "ereport." with
    | false =>
      simp only [runEvents, h1, Bool.not_false, if_true]
      exact ih dh errs
    | true =>
      cases h2 : (strStartsWith ev.cls "ereport.fm." ||
          strStartsWith ev.cls "ereport.fs.") with
      | true =>
        simp only [runEvents, h1, Bool.not_true, if_false, h2, if_true]
        exact ih dh errs
      | false =>
        cases hd : ev.detector with
        | none =>
          simp [runEvents, h1, h2, parseEreport, hd, Except.map]
        | some d =>
          cases hdp : d.device_path with
          | none =>
            simp only [runEvents, h1, Bool.not_true, if_false, h2,
              parseEreport, hd, Option.map, hdp]
            rw [ih dh (errs ++ ["No device path - skipping (" ++ ev.cls ++ ")"]),
              ih dh ([] ++ ["No device path - skipping (" ++ ev.cls ++ ")"])]
            cases hres : runEvents rest dh [] <;>
              simp [Except.map, List.append_assoc]
          | some dp =>
            simp only [runEvents, h1, Bool.not_true, if_false, h2,
              parseEreport, hd, Option.map, hdp]
            cases hpd : processDevEvent dh dp
                { cls := ev.cls, detector := d, tod := ev.tod } with
            | error err => simp [Except.map]
            | ok dh1 => exact ih dh1 errs

/-- Claim C3: an input event is admitted into the aggregation exactly
when its class starts with "ereport." but not with "ereport.fm." or
"ereport.fs." and its detector carries a device path; outside the
aggregable namespace the event is skipped silently; inside it with no
device path the event is skipped with a diagnostic line on the stderr
stream, the stdout report unchanged and the run not aborted; classes
"ereport.fm.xxx" and "io.disk" are never admitted. -/
theorem c3_admission_filter (ev : RawEvent) (rest : List RawEvent) (dh : DevMap)
    (errs : List String) (hwgrok : HwGrok) :
    (strStartsWith ev.cls "ereport." = false →
      runEvents (ev :: rest) dh errs = runEvents rest dh errs) ∧
    ((strStartsWith ev.cls "ereport.fm." = true ∨
      strStartsWith ev.cls "ereport.fs." = true) →
      runEvents (ev :: rest) dh errs = runEvents rest dh errs) ∧
    (∀ d, strStartsWith ev.cls "ereport." = true →
      strStartsWith ev.cls "ereport.fm." = false →
      strStartsWith ev.cls "ereport.fs." = false →
      ev.detector = some d → d.device_path = none →
      runEvents (ev :: rest) dh errs =
        runEvents rest dh
          (errs ++ ["No device path - skipping (" ++ ev.cls ++ ")"]) ∧
      ((∃ err, run hwgrok (ev :: rest) = Except.error err ∧
          run hwgrok rest = Except.error err) ∨
       (∃ rep ds, run hwgrok rest = Except.ok (rep, ds) ∧
          run hwgrok (ev :: rest) =
            Except.ok (rep, ("No device path - skipping (" ++ ev.cls ++ ")") :: ds)))) ∧
    (∀ d dp, strStartsWith ev.cls "ereport." = true →
      strStartsWith ev.cls "ereport.fm." = false →
      strStartsWith ev.cls "ereport.fs." = false →
      ev.detector = some d → d.device_path = some dp →
      runEvents (ev :: rest) dh errs =
        (match processDevEvent dh dp { cls := ev.cls, detector := d, tod := ev.tod } with
         | Except.error err => Except.error err
         | Except.ok dh1 => runEvents rest dh1 errs)) ∧
    (∀ (det : Option Detector) (tod : List Int),
      runEvents ({ cls := "ereport.fm.xxx", detector := det, tod := tod } :: rest)
        dh errs = runEvents rest dh errs) ∧
    (∀ (det : Option Detector) (tod : List Int),
      runEvents ({ cls := "io.disk", detector := det, tod := tod } :: rest)
        dh errs = runEvents rest dh errs) := by
  refine ⟨?_, ?_, ?_, ?_, ?_, ?_⟩
  · intro h1
    simp [runEvents, h1]
  · intro h
    have h1 : strStartsWith ev.cls "ereport." = true := by
      rcases h with h | h
      · exact strStartsWith_trans ev.cls "ereport.fm." "ereport." h (by decide)
      · exact strStartsWith_trans ev.cls "ereport.fs." "ereport." h (by decide)
    have h2 : (strStartsWith ev.cls "ereport.fm." ||
        strStartsWith ev.cls "ereport.fs.") = true := by
      rcases h with h | h <;> simp [h]
    simp [runEvents, h1, h2]
  · intro d h1 hfm hfs hd hdp
    have hskip : runEvents (ev :: rest) dh errs =
        runEvents rest dh
          (errs ++ ["No device path - skipping (" ++ ev.cls ++ ")"]) := by
      simp [runEvents, h1, hfm, hfs, parseEreport, hd, hdp]
    refine ⟨hskip, ?_⟩
    have hrunev : runEvents (ev :: rest) [] [] =
        runEvents rest [] ["No device path - skipping (" ++ ev.cls ++ ")"] := by
      simp [runEvents, h1, hfm, hfs, parseEreport, hd, hdp]
    have hshift := runEvents_errs rest []
        ["No device path - skipping (" ++ ev.cls ++ ")"]
    cases hres : runEvents rest [] [] with
    | error err =>
      left
      refine ⟨err, ?_, ?_⟩
      · rw [run, hrunev, hshift, hres]
        rfl
      · rw [run, hres]
    | ok p =>
      right
      obtain ⟨dh1, ds⟩ := p
      refine ⟨render dh1 hwgrok, ds, ?_, ?_⟩
      · rw [run, hres]
      · rw [run, hrunev, hshift, hres]
        rfl
  · intro d dp h1 hfm hfs hd hdp
    simp [runEvents, h1, hfm, hfs, parseEreport, hd, hdp]
  · intro det tod
    have ha : strStartsWith "ereport.fm.xxx" "ereport." = true := by decide
    have hb : strStartsWith "ereport.fm.xxx" "ereport.fm." = true := by decide
    simp [runEvents, ha, hb]
  · intro det tod
    have ha : strStartsWith "io.disk" "ereport." = false := by decide
    simp [runEvents, ha]

/-! ### Claim C5: duplicate inventory entries both reach the report -/

/-- A drive-bay disk at "/pci@0/disk@1" made by Acme. -/
def acmeDisk : HwGrokDisk :=
  { fmri := "fmri-disk-a", manufacturer := "Acme", model := "M1"
    serial_number := "S1", disk_firmware_rev := "F1"
    disk_device_path := "/pci@0/disk@1" }

/-- A second drive-bay disk with the same device path, made by Bmce. -/
def bmceDisk : HwGrokDisk :=
  { fmri := "fmri-disk-b", manufacturer := "Bmce", model := "M2"
    serial_number := "S2", disk_firmware_rev := "F2"
    disk_device_path := "/pci@0/disk@1" }

def bayA : HwGrokDriveBays :=
  { label := "Bay A", fmri := "fmri-bay-a", disk := some acmeDisk }

def bayB : HwGrokDriveBays :=
  { label := "Bay B", fmri := "fmri-bay-b", disk := some bmceDisk }

/-- An inventory holding two drive bays whose disks share one device
path. -/
def dupHwGrok : HwGrok := { pci_devices := [], drive_bays := [bayA, bayB] }

/-- Claim C5 evaluated on the code: with two inventory entries matching
the same device path, the rendered section contains the enrichment
lines of BOTH entries (the scan continues and keeps printing), so the
entries after the first match do contribute to the report output. -/
theorem c5_duplicate_inventory_output :
    enrichLines "/pci@0/disk@1" dupHwGrok =
      diskLines bayA acmeDisk ++ diskLines bayB bmceDisk ∧
    fmtLine "Disk Manufacturer:" "Acme" ∈
      renderDevice "/pci@0/disk@1" (DeviceHashEnt.new testEreport "1970-01-01")
        dupHwGrok ∧
    fmtLine "Disk Manufacturer:" "Bmce" ∈
      renderDevice "/pci@0/disk@1" (DeviceHashEnt.new testEreport "1970-01-01")
        dupHwGrok := by
  refine ⟨by decide, by decide, by decide⟩

/-! ### Claim C6: enrichment dispatch by path shape -/

theorem flatMap_eq_nil_of_forall {α β : Type} (l : List α) (f : α → List β)
    (h : ∀ x ∈ l, f x = []) : l.flatMap f = [] := by
  induction l with
  | nil => simp
  | cons a t ih =>
    rw [List.flatMap_cons, h a (List.mem_cons_self a t), List.nil_append]
    exact ih (fun x hx => h x (List.mem_cons_of_mem a hx))

/-- Claim C6: the enrichment lookup dispatches on the path shape: paths
not under "/pci" trigger no scan and no enrichment; an absent inventory
(defaulted empty) and an inventory with no exactly-matching entry both
yield no enrichment lines and an unchanged report; disk-shaped paths
consult only drive_bays and other "/pci" paths only pci_devices; a
drive-bay entry with a present disk whose device path equals the looked
up path contributes its five enrichment fields. -/
theorem c6_enrichment_dispatch (dp : String) (inv : HwGrok) (ent : DeviceHashEnt) :
    (strStartsWith dp "/pci" = false → enrichLines dp inv = []) ∧
    (enrichLines dp HwGrok.default = []) ∧
    ((∀ bay, bay ∈ inv.drive_bays → ∀ disk, bay.disk = some disk →
        disk.disk_device_path ≠ dp) →
     (∀ pd, pd ∈ inv.pci_devices → dp ≠ pd.pci_device_path) →
      enrichLines dp inv = [] ∧
      renderDevice dp ent inv = renderDevice dp ent HwGrok.default) ∧
    (strStartsWith dp "/pci" = true → strContains dp "disk" = true →
      ∀ (pds pds' : List HwGrokPciDevices) (bays : List HwGrokDriveBays),
        enrichLines dp { pci_devices := pds, drive_bays := bays } =
          enrichLines dp { pci_devices := pds', drive_bays := bays }) ∧
    (strStartsWith dp "/pci" = true → strContains dp "disk" = false →
      ∀ (pds : List HwGrokPciDevices) (bays bays' : List HwGrokDriveBays),
        enrichLines dp { pci_devices := pds, drive_bays := bays } =
          enrichLines dp { pci_devices := pds, drive_bays := bays' }) ∧
    (strStartsWith dp "/pci" = true → strContains dp "disk" = true →
      ∀ bay disk, bay ∈ inv.drive_bays → bay.disk = some disk →
        disk.disk_device_path = dp →
        ∀ x, x ∈ diskLines bay disk → x ∈ enrichLines dp inv) ∧
    (strStartsWith "/usb@0" "/pci" = false) := by
  refine ⟨?_, ?_, ?_, ?_, ?_, ?_, by decide⟩
  · intro h
    simp [enrichLines, h]
  · by_cases h1 : strStartsWith dp "/pci" = true <;>
      by_cases h2 : strContains dp "disk" = true <;>
        simp [enrichLines, HwGrok.default, h1, h2]
  · intro hbays hpci
    have hnil : enrichLines dp inv = [] := by
      cases h1 : strStartsWith dp "/pci" with
      | true =>
        cases h2 : strContains dp "disk" with
        | true =>
          unfold enrichLines
          rw [h1, h2, if_pos rfl]
          apply flatMap_eq_nil_of_forall
          intro bay hbay
          cases hdisk : bay.disk with
          | none => rfl
          | some disk =>
            dsimp only
            rw [if_neg (hbays bay hbay disk hdisk)]
        | false =>
          unfold enrichLines
          rw [h1, h2, if_neg (by simp), if_pos rfl]
          apply flatMap_eq_nil_of_forall
          intro pd hpd
          rw [if_neg (hpci pd hpd)]
      | false =>
        unfold enrichLines
        rw [h1, if_neg (by simp), if_neg (by simp)]
    refine ⟨hnil, ?_⟩
    have hdef : enrichLines dp HwGrok.default = [] := by
      by_cases h1 : strStartsWith dp "/pci" = true <;>
        by_cases h2 : strContains dp "disk" = true <;>
          simp [enrichLines, HwGrok.default, h1, h2]
    unfold renderDevice
    rw [hnil, hdef]
  · intro h1 h2 pds pds' bays
    simp [enrichLines, h1, h2]
  · intro h1 h2 pds bays bays'
    simp [enrichLines, h1, h2]
  · intro h1 h2 bay disk hbay hdisk hpath x hx
    unfold enrichLines
    rw [if_pos (by rw [h1, h2]; rfl)]
    rw [List.mem_flatMap]
    refine ⟨bay, hbay, ?_⟩
    rw [hdisk]
    dsimp only
    rw [if_pos hpath]
    exact hx

/-! ### Claim C10: the detector scheme is never consulted -/

/-- Equality of ereports up to the detector scheme. -/
def erEq (a b : Ereport) : Prop :=
  a.cls = b.cls ∧ a.tod = b.tod ∧ a.detector.device_path = b.detector.device_path

/-- Equality of optional detectors up to the scheme. -/
def detOptEq : Option Detector → Option Detector → Prop
  | none, none => True
  | some a, some b => a.device_path = b.device_path
  | _, _ => False

/-- Equality of parsed log lines up to the detector scheme. -/
def rawEq (a b : RawEvent) : Prop :=
  a.cls = b.cls ∧ a.tod = b.tod ∧ detOptEq a.detector b.detector

/-- Equality of accumulators up to the schemes stored inside the
ereport history: all counters, the day order and the history length
coincide. -/
def entEq (a b : DeviceHashEnt) : Prop :=
  a.ereport_class_hash = b.ereport_class_hash ∧
  a.ereport_ts_hash = b.ereport_ts_hash ∧
  a.ereports_ts = b.ereports_ts ∧
  List.Forall₂ erEq a.ereports b.ereports

/-- Pointwise entEq of two device maps with equal key sequences. -/
def mapEq : DevMap → DevMap → Prop :=
  List.Forall₂ (fun x y => x.1 = y.1 ∧ entEq x.2 y.2)

theorem alookup_mapEq (m1 m2 : DevMap) (h : mapEq m1 m2) (k : String) :
    (alookup m1 k = none ∧ alookup m2 k = none) ∨
    (∃ e1 e2, alookup m1 k = some e1 ∧ alookup m2 k = some e2 ∧ entEq e1 e2) := by
  induction h with
  | nil => exact Or.inl ⟨rfl, rfl⟩
  | cons ha ht ih =>
    obtain ⟨hk, he⟩ := ha
    rename_i x y t1 t2
    by_cases hq : k = x.1
    · right
      refine ⟨x.2, y.2, ?_, ?_, he⟩
      · show (if k = x.1 then some x.2 else alookup t1 k) = some x.2
        rw [if_pos hq]
      · show (if k = y.1 then some y.2 else alookup t2 k) = some y.2
        rw [if_pos (hk ▸ hq)]
    · have h1 : alookup (x :: t1) k = alookup t1 k := by
        show (if k = x.1 then some x.2 else alookup t1 k) = _
        rw [if_neg hq]
      have h2 : alookup (y :: t2) k = alookup t2 k := by
        show (if k = y.1 then some y.2 else alookup t2 k) = _
        rw [if_neg (hk ▸ hq)]
      rw [h1, h2]
      exact ih

theorem aset_mapEq (m1 m2 : DevMap) (h : mapEq m1 m2) (k : String)
    (v1 v2 : DeviceHashEnt) (hv : entEq v1 v2) :
    mapEq (aset m1 k v1) (aset m2 k v2) := by
  induction h with
  | nil => exact List.Forall₂.cons ⟨rfl, hv⟩ List.Forall₂.nil
  | cons ha ht ih =>
    obtain ⟨hk, he⟩ := ha
    rename_i x y t1 t2
    by_cases hq : k = x.1
    · show mapEq (if k = x.1 then (k, v1) :: t1 else x :: aset t1 k v1)
        (if k = y.1 then (k, v2) :: t2 else y :: aset t2 k v2)
      rw [if_pos hq, if_pos (hk ▸ hq)]
      exact List.Forall₂.cons ⟨rfl, hv⟩ ht
    · show mapEq (if k = x.1 then (k, v1) :: t1 else x :: aset t1 k v1)
        (if k = y.1 then (k, v2) :: t2 else y :: aset t2 k v2)
      rw [if_neg hq, if_neg (hk ▸ hq)]
      exact List.Forall₂.cons ⟨hk, he⟩ ih

theorem entEq_new (e1 e2 : Ereport) (ts : String) (he : erEq e1 e2) :
    entEq (DeviceHashEnt.new e1 ts) (DeviceHashEnt.new e2 ts) :=
  ⟨by simp [DeviceHashEnt.new, he.1], rfl, rfl,
    List.Forall₂.cons he List.Forall₂.nil⟩

theorem entEq_step (a b : DeviceHashEnt) (e1 e2 : Ereport) (ts : String)
    (he : erEq e1 e2) (hab : entEq a b) :
    entEq (stepEnt a e1 ts) (stepEnt b e2 ts) := by
  obtain ⟨hch, hth, hts, hh⟩ := hab
  have hc := he.1
  refine ⟨?_, ?_, ?_, ?_⟩
  · show bump a.ereport_class_hash e1.cls = bump b.ereport_class_hash e2.cls
    rw [hch, hc]
  · show bump a.ereport_ts_hash ts = bump b.ereport_ts_hash ts
    rw [hth]
  · show (if (alookup a.ereport_ts_hash ts).isNone then a.ereports_ts ++ [ts]
        else a.ereports_ts) =
      (if (alookup b.ereport_ts_hash ts).isNone then b.ereports_ts ++ [ts]
        else b.ereports_ts)
    rw [hth, hts]
  · show List.Forall₂ erEq (a.ereports ++ [e1]) (b.ereports ++ [e2])
    exact List.rel_append hh (List.Forall₂.cons he List.Forall₂.nil)

theorem processDevEvent_respects (m1 m2 : DevMap) (dp : String)
    (e1 e2 : Ereport) (he : erEq e1 e2) (hm : mapEq m1 m2) :
    (∃ err, processDevEvent m1 dp e1 = Except.error err ∧
      processDevEvent m2 dp e2 = Except.error err) ∨
    (∃ m1' m2', processDevEvent m1 dp e1 = Except.ok m1' ∧
      processDevEvent m2 dp e2 = Except.ok m2' ∧ mapEq m1' m2') := by
  obtain ⟨hc, ht, hd⟩ := he
  cases htod : e1.tod with
  | nil =>
    left
    refine ⟨"index out of bounds: tod is empty", ?_, ?_⟩
    · unfold processDevEvent
      rw [htod]
    · unfold processDevEvent
      rw [← ht, htod]
  | cons t r =>
    cases hts : getEventTimestamp t with
    | none =>
      left
      refine ⟨"invalid or out-of-range datetime", ?_, ?_⟩
      · unfold processDevEvent
        rw [htod]
        dsimp only
        rw [hts]
      · unfold processDevEvent
        rw [← ht, htod]
        dsimp only
        rw [hts]
    | some ts =>
      right
      rcases alookup_mapEq m1 m2 hm dp with ⟨hl1, hl2⟩ | ⟨v1, v2, hl1, hl2, hv⟩
      · refine ⟨aset m1 dp (DeviceHashEnt.new e1 ts),
          aset m2 dp (DeviceHashEnt.new e2 ts), ?_, ?_, ?_⟩
        · unfold processDevEvent
          rw [htod]
          dsimp only
          rw [hts]
          dsimp only
          rw [hl1]
        · unfold processDevEvent
          rw [← ht, htod]
          dsimp only
          rw [hts]
          dsimp only
          rw [hl2]
        · exact aset_mapEq m1 m2 hm dp _ _ (entEq_new e1 e2 ts ⟨hc, ht, hd⟩)
      · refine ⟨aset m1 dp (stepEnt v1 e1 ts),
          aset m2 dp (stepEnt v2 e2 ts), ?_, ?_, ?_⟩
        · unfold processDevEvent
          rw [htod]
          dsimp only
          rw [hts]
          dsimp only
          rw [hl1]
        · unfold processDevEvent
          rw [← ht, htod]
          dsimp only
          rw [hts]
          dsimp only
          rw [hl2]
        · exact aset_mapEq m1 m2 hm dp _ _ (entEq_step v1 v2 e1 e2 ts ⟨hc, ht, hd⟩ hv)

theorem runEvents_respects (log1 log2 : List RawEvent)
    (h : List.Forall₂ rawEq log1 log2) : ∀ (m1 m2 : DevMap) (errs : List String),
    mapEq m1 m2 →
    ((∃ err, runEvents log1 m1 errs = Except.error err ∧
        runEvents log2 m2 errs = Except.error err) ∨
     (∃ dh1 dh2 ds, runEvents log1 m1 errs = Except.ok (dh1, ds) ∧
        runEvents log2 m2 errs = Except.ok (dh2, ds) ∧ mapEq dh1 dh2)) := by
  induction h with
  | nil =>
    intro m1 m2 errs hm
    right
    exact ⟨m1, m2, errs, rfl, rfl, hm⟩
  | cons ha ht ih =>
    intro m1 m2 errs hm
    rename_i a b t1 t2
    obtain ⟨hc, htod, hdet⟩ := ha
    cases h1 : strStartsWith a.cls "ereport." with
    | false =>
      have h1' : strStartsWith b.cls "ereport." = false := by rw [← hc]; exact h1
      have e1 : runEvents (a :: t1) m1 errs = runEvents t1 m1 errs := by
        simp [runEvents, h1]
      have e2 : runEvents (b :: t2) m2 errs = runEvents t2 m2 errs := by
        simp [runEvents, h1']
      rw [e1, e2]
      exact ih m1 m2 errs hm
    | true =>
      have h1' : strStartsWith b.cls "ereport." = true := by rw [← hc]; exact h1
      cases h2 : (strStartsWith a.cls "ereport.fm." ||
          strStartsWith a.cls "ereport.fs.") with
      | true =>
        have h2' : (strStartsWith b.cls "ereport.fm." ||
            strStartsWith b.cls "ereport.fs.") = true := by rw [← hc]; exact h2
        have e1 : runEvents (a :: t1) m1 errs = runEvents t1 m1 errs := by
          simp [runEvents, h1, h2]
        have e2 : runEvents (b :: t2) m2 errs = runEvents t2 m2 errs := by
          simp [runEvents, h1', h2']
        rw [e1, e2]
        exact ih m1 m2 errs hm
      | false =>
        have h2' : (strStartsWith b.cls "ereport.fm." ||
            strStartsWith b.cls "ereport.fs.") = false := by rw [← hc]; exact h2
        cases hda : a.detector with
        | none =>
          cases hdb : b.detector with
          | some d => rw [hda, hdb] at hdet; exact absurd hdet (by simp [detOptEq])
          | none =>
            left
            refine ⟨"json parse error: missing field detector", ?_, ?_⟩
            · simp [runEvents, h1, h2, parseEreport, hda]
            · simp [runEvents, h1', h2', parseEreport, hdb]
        | some d1 =>
          cases hdb : b.detector with
          | none => rw [hda, hdb] at hdet; exact absurd hdet (by simp [detOptEq])
          | some d2 =>
            rw [hda, hdb] at hdet
            have hdp12 : d1.device_path = d2.device_path := hdet
            cases hdp : d1.device_path with
            | none =>
              have hdp' : d2.device_path = none := by rw [← hdp12]; exact hdp
              have e1 : runEvents (a :: t1) m1 errs = runEvents t1 m1
                  (errs ++ ["No device path - skipping (" ++ a.cls ++ ")"]) := by
                simp [runEvents, h1, h2, parseEreport, hda, hdp]
              have e2 : runEvents (b :: t2) m2 errs = runEvents t2 m2
                  (errs ++ ["No device path - skipping (" ++ b.cls ++ ")"]) := by
                simp [runEvents, h1', h2', parseEreport, hdb, hdp']
              rw [e1, e2, hc]
              exact ih m1 m2 _ hm
            | some dp =>
              have hdp' : d2.device_path = some dp := by rw [← hdp12]; exact hdp
              have hee : erEq { cls := a.cls, detector := d1, tod := a.tod }
                  { cls := b.cls, detector := d2, tod := b.tod } := ⟨hc, htod, hdp12⟩
              have e1 : runEvents (a :: t1) m1 errs =
                  (match processDevEvent m1 dp { cls := a.cls, detector := d1, tod := a.tod } with
                   | Except.error err => Except.error err
                   | Except.ok dh1 => runEvents t1 dh1 errs) := by
                simp [runEvents, h1, h2, parseEreport, hda, hdp]
              have e2 : runEvents (b :: t2) m2 errs =
                  (match processDevEvent m2 dp { cls := b.cls, detector := d2, tod := b.tod } with
                   | Except.error err => Except.error err
                   | Except.ok dh2 => runEvents t2 dh2 errs) := by
                simp [runEvents, h1', h2', parseEreport, hdb, hdp']
              rw [e1, e2]
              rcases processDevEvent_respects m1 m2 dp _ _ hee hm with
                ⟨err, hp1, hp2⟩ | ⟨m1', m2', hp1, hp2, hm'⟩
              · left
                rw [hp1, hp2]
                exact ⟨err, rfl, rfl⟩
              · rw [hp1, hp2]
                dsimp only
                exact ih m1' m2' errs hm'

theorem renderDevice_entEq (dp : String) (a b : DeviceHashEnt) (hw : HwGrok)
    (hab : entEq a b) : renderDevice dp a hw = renderDevice dp b hw := by
  obtain ⟨hch, hth, hts, hh⟩ := hab
  have hf : tsCountLine a = tsCountLine b := by
    funext ts
    unfold tsCountLine
    rw [hth]
  unfold renderDevice
  rw [hch, hts, hh.length_eq, hf]

theorem flatMap_render_mapEq (hw : HwGrok) (m1 m2 : DevMap) (h : mapEq m1 m2) :
    m1.flatMap (fun kv => renderDevice kv.1 kv.2 hw) =
      m2.flatMap (fun kv => renderDevice kv.1 kv.2 hw) := by
  induction h with
  | nil => rfl
  | cons ha ht ih =>
    rename_i x y t1 t2
    obtain ⟨hk, he⟩ := ha
    rw [List.flatMap_cons, List.flatMap_cons, ih, hk,
      renderDevice_entEq y.1 x.2 y.2 hw he]

theorem render_mapEq (hw : HwGrok) (m1 m2 : DevMap) (h : mapEq m1 m2) :
    render m1 hw = render m2 hw := by
  unfold render
  rw [flatMap_render_mapEq hw m1 m2 h]

theorem mapEq_keys (m1 m2 : DevMap) (h : mapEq m1 m2) :
    m1.map Prod.fst = m2.map Prod.fst := by
  induction h with
  | nil => rfl
  | cons ha ht ih =>
    rw [List.map_cons, List.map_cons, ha.1, ih]

/-- Claim C10: the detector scheme is parsed but never consulted: for
two input logs identical except for the per-event scheme strings, the
run outcome (the full rendered report and the diagnostic lines, or the
same fatal error) is identical, the device maps carry the same key
sequence, and every device has identical class counts, day counts and
day order and the same history length. -/
theorem c10_scheme_noninterference (hwgrok : HwGrok) (log1 log2 : List RawEvent)
    (h : List.Forall₂ rawEq log1 log2) :
    ((∃ err, run hwgrok log1 = Except.error err ∧
        run hwgrok log2 = Except.error err) ∨
     (∃ out, run hwgrok log1 = Except.ok out ∧ run hwgrok log2 = Except.ok out)) ∧
    (∀ dh1 ds1 dh2 ds2, runEvents log1 [] [] = Except.ok (dh1, ds1) →
      runEvents log2 [] [] = Except.ok (dh2, ds2) →
      dh1.map Prod.fst = dh2.map Prod.fst ∧ ds1 = ds2 ∧
      ∀ dev, (∃ e1 e2, alookup dh1 dev = some e1 ∧ alookup dh2 dev = some e2 ∧
          e1.ereport_class_hash = e2.ereport_class_hash ∧
          e1.ereport_ts_hash = e2.ereport_ts_hash ∧
          e1.ereports_ts = e2.ereports_ts ∧
          e1.ereports.length = e2.ereports.length) ∨
        (alookup dh1 dev = none ∧ alookup dh2 dev = none)) := by
  have hresp := runEvents_respects log1 log2 h [] [] [] List.Forall₂.nil
  constructor
  · rcases hresp with ⟨err, hr1, hr2⟩ | ⟨dh1, dh2, ds, hr1, hr2, hm⟩
    · left
      refine ⟨err, ?_, ?_⟩
      · rw [run, hr1]
      · rw [run, hr2]
    · right
      refine ⟨(render dh2 hwgrok, ds), ?_, ?_⟩
      · rw [run, hr1]
        dsimp only
        rw [render_mapEq hwgrok dh1 dh2 hm]
      · rw [run, hr2]
  · intro dh1 ds1 dh2 ds2 h1 h2
    rcases hresp with ⟨err, hr1, hr2⟩ | ⟨dh1', dh2', ds, hr1, hr2, hm⟩
    · rw [h1] at hr1
      exact absurd hr1 (by simp)
    · rw [h1] at hr1
      rw [h2] at hr2
      rw [Except.ok.injEq, Prod.mk.injEq] at hr1 hr2
      obtain ⟨hda, hdsa⟩ := hr1
      obtain ⟨hdb, hdsb⟩ := hr2
      subst hda
      subst hdb
      refine ⟨mapEq_keys dh1 dh2 hm, by rw [hdsa, hdsb], ?_⟩
      intro dev
      rcases alookup_mapEq dh1 dh2 hm dev with ⟨hn1, hn2⟩ | ⟨e1, e2, he1, he2, hee⟩
      · exact Or.inr ⟨hn1, hn2⟩
      · obtain ⟨hc, ht, hts, hh⟩ := hee
        exact Or.inl ⟨e1, e2, he1, he2, hc, ht, hts, hh.length_eq⟩

/-- A log line with scheme "dev". -/
def schemeRawA : RawEvent :=
  { cls := "ereport.io.test"
    detector := some { scheme := "dev", device_path := some "/p" }
    tod := [0] }

/-- The same log line with scheme "other". -/
def schemeRawB : RawEvent :=
  { cls := "ereport.io.test"
    detector := some { scheme := "other", device_path := some "/p" }
    tod := [0] }

/-- Witness for C10: two one-line logs differing only in the detector
scheme. -/
theorem c10_scheme_noninterference_witness :
    ((∃ err, run HwGrok.default [schemeRawA] = Except.error err ∧
        run HwGrok.default [schemeRawB] = Except.error err) ∨
     (∃ out, run HwGrok.default [schemeRawA] = Except.ok out ∧
        run HwGrok.default [schemeRawB] = Except.ok out)) ∧
    (∀ dh1 ds1 dh2 ds2, runEvents [schemeRawA] [] [] = Except.ok (dh1, ds1) →
      runEvents [schemeRawB] [] [] = Except.ok (dh2, ds2) →
      dh1.map Prod.fst = dh2.map Prod.fst ∧ ds1 = ds2 ∧
      ∀ dev, (∃ e1 e2, alookup dh1 dev = some e1 ∧ alookup dh2 dev = some e2 ∧
          e1.ereport_class_hash = e2.ereport_class_hash ∧
          e1.ereport_ts_hash = e2.ereport_ts_hash ∧
          e1.ereports_ts = e2.ereports_ts ∧
          e1.ereports.length = e2.ereports.length) ∨
        (alookup dh1 dev = none ∧ alookup dh2 dev = none)) :=
  c10_scheme_noninterference HwGrok.default [schemeRawA] [schemeRawB]
    (List.Forall₂.cons ⟨rfl, rfl, rfl⟩ List.Forall₂.nil)

example : getEventTimestamp 86399 = some "1970-01-01" := by decide
example : getEventTimestamp 86400 = some "1970-01-02" := by decide
example : getEventTimestamp (-1) = some "1969-12-31" := by decide
example : getEventTimestamp 1000000000 = some "2001-09-09" := by decide
example : getEventTimestamp 1000000000000000000 = none := by decide

end FmLogReport
